import Mathlib

/-!
# A shallow embedding of stripe/unilog's core, with proofs about its spec

This file embeds the parts of the unilog log-shipping daemon that the
specification's testable properties are about:

* the austerity / criticality level enum and its parser
  (`clevels/austerity.go`: `ParseLevel`, `LoadLevel`, `Criticality`,
  `SendSystemAusterityLevel`),
* the shedding filter (`filters/austerity.go`: `samplingRate`, `shouldShed`),
* the shutdown-aware readers (`reader.go`: `UnilogReader.Read`, `Reader.Read`),
* the line pipeline (`unilog.go`: `readlines`),
* the event loop (`unilog.go`: `Unilog.tick`) and the failure notifier
  (`unilog.go`: `Unilog.handleError`),
* the JSON log-line encoder (`json/json.go`: `LogLine.TS`,
  `LogLine.MarshalJSON`).

Go byte strings are modelled as `List Char` (the inputs of interest are
ASCII), machine integers as `Nat`/`Int`, `float64` arithmetic on the
decade sampling rates as exact rationals, and channels/goroutines as
explicit state machines driven by event lists.
-/

namespace Unilog

/-! ## Austerity levels (`clevels/austerity.go`)

`type AusterityLevel int` with `Sheddable AusterityLevel = iota;
SheddablePlus; Critical; CriticalPlus`. -/

inductive AusterityLevel where
  | Sheddable
  | SheddablePlus
  | Critical
  | CriticalPlus
deriving DecidableEq, Repr

namespace AusterityLevel

/-- The integer value of the Go enum constant. -/
def toNat : AusterityLevel → Nat
  | Sheddable => 0
  | SheddablePlus => 1
  | Critical => 2
  | CriticalPlus => 3

/-- `AusterityLevel.String()`, the stringer generated from the constant names. -/
def str : AusterityLevel → String
  | Sheddable => "Sheddable"
  | SheddablePlus => "SheddablePlus"
  | Critical => "Critical"
  | CriticalPlus => "CriticalPlus"

end AusterityLevel

/-- `DefaultCriticality AusterityLevel = SheddablePlus`. -/
def DefaultCriticality : AusterityLevel := AusterityLevel.SheddablePlus

/-- `DefaultAusterity AusterityLevel = Sheddable`. -/
def DefaultAusterity : AusterityLevel := AusterityLevel.Sheddable

/-- ASCII lowering, modelling `strings.ToLower` on the ASCII level names and
file contents the daemon compares. -/
def lowerChar (c : Char) : Char :=
  if c.isUpper then Char.ofNat (c.toNat + 32) else c

/-- ASCII raising, modelling `strings.ToUpper` (used only to state the spec's
case-insensitive pattern). -/
def upperChar (c : Char) : Char :=
  if c.isLower then Char.ofNat (c.toNat - 32) else c

/-- `unicode.IsSpace` restricted to ASCII: `\t\n\v\f\r` and space, as used by
`strings.TrimSpace`. -/
def isTrimSpace (c : Char) : Bool :=
  c = ' ' || c = '\t' || c = '\n' || c = '\x0b' || c = '\x0c' || c = '\r'

/-- `strings.TrimSpace` on a character list. -/
def trimSpace (l : List Char) : List Char :=
  ((l.dropWhile isTrimSpace).reverse.dropWhile isTrimSpace).reverse

/-- `ParseLevel` lowercases and trims the input and compares it against the
lowercased level names; on no match it returns `(DefaultAusterity, err)`.
The `Bool` component is `true` when parsing succeeded (`err == nil`). -/
def ParseLevel (s : String) : AusterityLevel × Bool :=
  let t := trimSpace (s.toList.map lowerChar)
  if t = "sheddable".toList then (AusterityLevel.Sheddable, true)
  else if t = "sheddableplus".toList then (AusterityLevel.SheddablePlus, true)
  else if t = "critical".toList then (AusterityLevel.Critical, true)
  else if t = "criticalplus".toList then (AusterityLevel.CriticalPlus, true)
  else (DefaultAusterity, false)

/-- `LoadLevel` opens `AusterityFile` and parses it; an unreadable file is
modelled as `none` and yields `(DefaultAusterity, err)` exactly like the
`os.Open` failure branch. The `Bool` is `true` when no error occurred. -/
def LoadLevel (file : Option String) : AusterityLevel × Bool :=
  match file with
  | none => (DefaultAusterity, false)
  | some contents => ParseLevel contents

/-! ## The criticality classifier (`clevels/austerity.go`: `Criticality`)

The three regular expressions

* `canonicalRegex  = CANONICAL-\w+?-LINE`
* `cLevelRegex     = \[clevel: (\w*?)\]`
* `cLevelChalkRegex = \sclevel=(\w+?)\b`

are embedded as explicit scanners.  Go's `\w` is `[0-9A-Za-z_]`, and `\s`
is `[\t\n\f\r ]`.  For each pattern the non-greedy repetition together
with the literal that follows it pins the capture to the maximal run of
word characters starting at the capture position (no word character can
match `-`, `]`, or a word boundary), so matching at a position reduces to:
literal prefix, maximal word run, literal suffix. -/

/-- Go regexp `\w`: `[0-9A-Za-z_]`. -/
def isWordChar (c : Char) : Bool := c.isAlphanum || c = '_'

/-- Go regexp `\s`: `[\t\n\f\r ]`. -/
def isSpaceGo (c : Char) : Bool :=
  c = ' ' || c = '\t' || c = '\n' || c = '\x0c' || c = '\r'

/-- Split off the maximal leading run of word characters. -/
def takeWordRun : List Char → List Char × List Char
  | [] => ([], [])
  | c :: cs =>
    if isWordChar c then
      let p := takeWordRun cs
      (c :: p.1, p.2)
    else ([], c :: cs)

/-- Does `canonicalRegex` (`CANONICAL-\w+?-LINE`, case-sensitive: the Go
pattern carries no `(?i)` flag) match starting exactly at this position? -/
def canonicalAt (l : List Char) : Bool :=
  if l.take 10 = "CANONICAL-".toList then
    let p := takeWordRun (l.drop 10)
    !p.1.isEmpty && p.2.take 5 = "-LINE".toList
  else false

/-- `canonicalRegex.MatchString`: a match starting at some position. -/
def canonicalMatch (s : String) : Bool :=
  s.toList.tails.any canonicalAt

/-- `cLevelRegex` (`\[clevel: (\w*?)\]`) matched at this position; returns
the captured group. -/
def bracketAt (l : List Char) : Option (List Char) :=
  if l.take 9 = "[clevel: ".toList then
    let p := takeWordRun (l.drop 9)
    match p.2 with
    | ']' :: _ => some p.1
    | _ => none
  else none

/-- `cLevelChalkRegex` (`\sclevel=(\w+?)\b`) matched at this position;
returns the captured group. -/
def chalkAt (l : List Char) : Option (List Char) :=
  match l with
  | [] => none
  | c :: cs =>
    if isSpaceGo c && cs.take 7 = "clevel=".toList then
      let p := takeWordRun (cs.drop 7)
      if p.1.isEmpty then none else some p.1
    else none

/-- `FindStringSubmatch`: the capture of the leftmost match. -/
def scanFor (f : List Char → Option (List Char)) : List Char → Option (List Char)
  | [] => f []
  | c :: cs =>
    match f (c :: cs) with
    | some r => some r
    | none => scanFor f cs

/-- One step of `Criticality`'s regex loop: if the regex matched, parse the
capture; a parse failure makes the loop `continue` (modelled as `none`). -/
def tryLevel (cap : Option (List Char)) : Option AusterityLevel :=
  match cap with
  | none => none
  | some r =>
    let p := ParseLevel (String.mk r)
    if p.2 then some p.1 else none

/-- `Criticality` parses the criticality level of a text log line:
canonical lines are `CriticalPlus`; otherwise the first clevel regex whose
capture parses wins; otherwise `DefaultCriticality`. -/
def Criticality (line : String) : AusterityLevel :=
  if canonicalMatch line then AusterityLevel.CriticalPlus
  else
    match tryLevel (scanFor bracketAt line.toList) with
    | some l => l
    | none =>
      match tryLevel (scanFor chalkAt line.toList) with
      | some l => l
      | none => DefaultCriticality

/-- The canonical-line pattern as the spec words it: `CANONICAL-<WORD>-LINE`
matched case-insensitively.  (Written from the spec, for comparison with the
source's case-sensitive `canonicalMatch`.) -/
def canonicalMatchCaseless (s : String) : Bool :=
  canonicalMatch (String.mk (s.toList.map upperChar))

/-! ## The shedding filter (`filters/austerity.go`)

`samplingRate` computes `math.Pow(10, -(austerityLevel-criticalityLevel))`;
the decade rates are exactly representable intent-wise and are idealized
here as exact rationals.  `shouldShed` keeps a line whenever
`criticalityLevel >= austerityLevel`, and otherwise sheds exactly when the
uniform draw `rand.Float64()` exceeds the sampling rate. -/

/-- `samplingRate(austerityLevel, criticalityLevel)`. -/
def samplingRate (austerityLevel criticalityLevel : AusterityLevel) : ℚ :=
  if criticalityLevel.toNat > austerityLevel.toNat then 1
  else (1 / 10 : ℚ) ^ (austerityLevel.toNat - criticalityLevel.toNat)

/-- `shouldShed(criticalityLevel)` with the system austerity level and the
value `r` of the `rand.Float64()` draw made explicit. -/
def shouldShed (criticalityLevel austerityLevel : AusterityLevel) (r : ℚ) : Bool :=
  if austerityLevel.toNat ≤ criticalityLevel.toNat then false
  else decide (r > samplingRate austerityLevel criticalityLevel)

/-- The shed event of `shouldShed`, as a predicate on real-valued draws (the
draw is uniform on `[0,1)`). -/
def sheds (criticalityLevel austerityLevel : AusterityLevel) (r : ℝ) : Prop :=
  criticalityLevel.toNat < austerityLevel.toNat ∧
    ((samplingRate austerityLevel criticalityLevel : ℚ) : ℝ) < r

/-- The executable decision and the real-valued event agree on rational draws. -/
theorem shouldShed_iff_sheds (c a : AusterityLevel) (q : ℚ) :
    shouldShed c a q = true ↔ sheds c a (q : ℝ) := by
  unfold shouldShed sheds
  rcases Nat.lt_or_ge c.toNat a.toNat with h | h
  · simp [Nat.not_le.mpr h, h, Rat.cast_lt]
  · simp [Nat.le_of_lt_succ, h, Nat.not_lt.mpr h]

/-- The set of uniform draws in `[0,1)` for which the line is kept; the
keep-probability is its Lebesgue measure `MeasureTheory.volume (keepSet c a)`
(the draw `rand.Float64()` is uniform on `[0,1)`). -/
def keepSet (criticalityLevel austerityLevel : AusterityLevel) : Set ℝ :=
  {r : ℝ | r ∈ Set.Ico (0 : ℝ) 1 ∧ ¬ sheds criticalityLevel austerityLevel r}

/-- The sampling rate, cast to `ℝ`, in the sheddable case. -/
theorem samplingRate_cast (c a : AusterityLevel) (h : c.toNat < a.toNat) :
    ((samplingRate a c : ℚ) : ℝ) = (1 / 10 : ℝ) ^ (a.toNat - c.toNat) := by
  unfold samplingRate
  rw [if_neg (by omega)]
  push_cast
  norm_num

/-- When criticality is at least austerity, every draw keeps the line. -/
theorem keepSet_of_ge (c a : AusterityLevel) (h : a.toNat ≤ c.toNat) :
    keepSet c a = Set.Ico (0 : ℝ) 1 := by
  ext r
  simp [keepSet, sheds, Nat.not_lt.mpr h]

/-- When criticality is below austerity, the keep set is the interval from 0
to the sampling rate. -/
theorem keepSet_of_lt (c a : AusterityLevel) (h : c.toNat < a.toNat) :
    keepSet c a = Set.Icc (0 : ℝ) ((1 / 10 : ℝ) ^ (a.toNat - c.toNat)) := by
  have hk : 1 ≤ a.toNat - c.toNat := by omega
  have hlt : (1 / 10 : ℝ) ^ (a.toNat - c.toNat) < 1 :=
    pow_lt_one₀ (by norm_num) (by norm_num) (by omega)
  ext r
  simp only [keepSet, sheds, samplingRate_cast c a h, Set.mem_setOf_eq, Set.mem_Ico,
    Set.mem_Icc, h, true_and]
  constructor
  · rintro ⟨⟨h0, _⟩, hr⟩
    exact ⟨h0, not_lt.mp hr⟩
  · rintro ⟨h0, hr⟩
    exact ⟨⟨h0, lt_of_le_of_lt hr hlt⟩, not_lt.mpr hr⟩

/-- For `criticality < austerity` the keep-probability is the sampling rate. -/
theorem volume_keepSet_of_lt (c a : AusterityLevel) (h : c.toNat < a.toNat) :
    MeasureTheory.volume (keepSet c a) =
      ENNReal.ofReal ((1 / 10 : ℝ) ^ (a.toNat - c.toNat)) := by
  rw [keepSet_of_lt c a h, Real.volume_Icc]
  norm_num

/-- **C4**: for the shedding decision with criticality `c` and austerity `a`:
if `c ≥ a` the record is always kept (keep-probability exactly 1); if `c < a`
the keep-probability equals `10^-(a-c)`, so each one-level increase of the
austerity level (above `c`) strictly decreases the keep-probability by a
factor of 10; in particular austerity `Critical` with criticality `Sheddable`
gives keep-probability `1/100 = 0.01`. -/
theorem claim_C4_shedding_keep_probability :
    (∀ c a : AusterityLevel, a.toNat ≤ c.toNat →
      MeasureTheory.volume (keepSet c a) = 1) ∧
    (∀ c a : AusterityLevel, c.toNat < a.toNat →
      MeasureTheory.volume (keepSet c a) =
        ENNReal.ofReal ((1 / 10 : ℝ) ^ (a.toNat - c.toNat))) ∧
    (∀ c a b : AusterityLevel, c.toNat < a.toNat → b.toNat = a.toNat + 1 →
      MeasureTheory.volume (keepSet c b) < MeasureTheory.volume (keepSet c a) ∧
      10 * MeasureTheory.volume (keepSet c b) = MeasureTheory.volume (keepSet c a)) ∧
    MeasureTheory.volume (keepSet AusterityLevel.Sheddable AusterityLevel.Critical) =
      ENNReal.ofReal (1 / 100) := by
  refine ⟨fun c a h => ?_, fun c a h => volume_keepSet_of_lt c a h, ?_, ?_⟩
  · rw [keepSet_of_ge c a h, Real.volume_Ico]
    norm_num
  · intro c a b h hb
    have hcb : c.toNat < b.toNat := by omega
    rw [volume_keepSet_of_lt c a h, volume_keepSet_of_lt c b hcb, hb]
    have hk : a.toNat + 1 - c.toNat = (a.toNat - c.toNat) + 1 := by omega
    rw [hk]
    have hpos : (0 : ℝ) < (1 / 10 : ℝ) ^ (a.toNat - c.toNat) := by positivity
    have hstep : (1 / 10 : ℝ) ^ ((a.toNat - c.toNat) + 1) =
        (1 / 10 : ℝ) ^ (a.toNat - c.toNat) * (1 / 10) := pow_succ _ _
    constructor
    · rw [ENNReal.ofReal_lt_ofReal_iff hpos, hstep]
      nlinarith [hpos]
    · rw [show (10 : ENNReal) = ENNReal.ofReal 10 by norm_num,
        ← ENNReal.ofReal_mul (by norm_num : (0 : ℝ) ≤ 10)]
      congr 1
      rw [hstep]
      ring
  · rw [volume_keepSet_of_lt _ _ (by decide)]
    norm_num [AusterityLevel.toNat]

/-- Witness for C4 at concrete levels: `CriticalPlus` under `Sheddable`
austerity is always kept; `Sheddable` under `SheddablePlus` austerity is kept
with probability `1/10`; raising austerity from `SheddablePlus` to `Critical`
divides the `Sheddable` keep-probability by 10. -/
theorem claim_C4_shedding_keep_probability_witness :
    MeasureTheory.volume
      (keepSet AusterityLevel.CriticalPlus AusterityLevel.Sheddable) = 1 ∧
    MeasureTheory.volume
      (keepSet AusterityLevel.Sheddable AusterityLevel.SheddablePlus) =
      ENNReal.ofReal ((1 / 10 : ℝ) ^
        (AusterityLevel.SheddablePlus.toNat - AusterityLevel.Sheddable.toNat)) ∧
    10 * MeasureTheory.volume
        (keepSet AusterityLevel.Sheddable AusterityLevel.Critical) =
      MeasureTheory.volume
        (keepSet AusterityLevel.Sheddable AusterityLevel.SheddablePlus) :=
  ⟨claim_C4_shedding_keep_probability.1 _ _ (by decide),
   claim_C4_shedding_keep_probability.2.1 _ _ (by decide),
   (claim_C4_shedding_keep_probability.2.2.1 _ _ _ (by decide) (by decide)).2⟩

/-- **C5**: the spec claims every line matching `CANONICAL-<WORD>-LINE`
*case-insensitively* classifies as `CriticalPlus`.  The source's
`canonicalRegex` carries no `(?i)` flag, so the lower-case canonical line
from the repository's own test suite (expected `CriticalPlus` there, in a
test annotated "test for case-insensitivity") classifies as the default
`SheddablePlus`: the code contradicts its own test.  The precedence half of
the claim does hold when the case matches: an upper-case canonical line with
an explicit lower `clevel` tag still classifies as `CriticalPlus`. -/
theorem claim_C5_canonical_case_sensitivity :
    canonicalMatchCaseless "canonical-monster-line: status=200" = true ∧
    Criticality "canonical-monster-line: status=200" = AusterityLevel.SheddablePlus ∧
    Criticality "CANONICAL-API-LINE: x clevel=sheddable" = AusterityLevel.CriticalPlus := by
  exact ⟨by decide, by decide, by decide⟩

/-! ## The austerity level service (`clevels/austerity.go`:
`SendSystemAusterityLevel`)

The service is two goroutines: a loader that ticks every `CacheInterval`,
runs `LoadLevel`, counts `unilog.errors.load_level` and `continue`s on
error, and otherwise forwards the loaded level; and the select loop holding
`currentLevel`, which either hands the cached level to a reader of
`SystemAusterityLevel` or installs a freshly loaded level.  One iteration is
modelled as a step over the cached level, driven by whichever channel fired. -/

/-- One input to the service's loops: a reader receives the cached level from
the relay channel, or the loader's timer ticks and `LoadLevel` runs against
the austerity file (whose contents at that instant are `file`, `none` when
unreadable). -/
inductive ServiceEvent where
  | request
  | load (file : Option String)

/-- `var currentLevel = Sheddable` — the initial cache. -/
def serviceInit : AusterityLevel := AusterityLevel.Sheddable

/-- One iteration of the service, threading the cached `currentLevel`:
returns the new cache, the level handed to the requesting reader (on
`request`), and whether the `unilog.errors.load_level` failure metric was
counted (load failure). -/
def serviceStep (currentLevel : AusterityLevel) (e : ServiceEvent) :
    AusterityLevel × Option AusterityLevel × Bool :=
  match e with
  | ServiceEvent.request => (currentLevel, some currentLevel, false)
  | ServiceEvent.load f =>
    let p := LoadLevel f
    if p.2 then (p.1, none, false) else (currentLevel, none, true)

/-- **C9**: the cached austerity level starts at `Sheddable`; an iteration in
which `LoadLevel` fails (unreadable file or parse error) leaves the cache
unchanged and emits the failure metric, so a transient file error never
raises the effective level; and a reader request is always served the
current cache. -/
theorem claim_C9_austerity_service_invariant :
    serviceInit = AusterityLevel.Sheddable ∧
    (∀ (s : AusterityLevel) (f : Option String), (LoadLevel f).2 = false →
      (serviceStep s (ServiceEvent.load f)).1 = s ∧
      (serviceStep s (ServiceEvent.load f)).2.2 = true) ∧
    (∀ s : AusterityLevel,
      (serviceStep s ServiceEvent.request).2.1 = some s ∧
      (serviceStep s ServiceEvent.request).1 = s) := by
  refine ⟨rfl, ?_, fun s => ⟨rfl, rfl⟩⟩
  intro s f h
  simp [serviceStep, h]

/-- Witness for C9: a missing austerity file (`none`, the `os.Open` error
branch) fails to load and leaves a `Critical` cache at `Critical`. -/
theorem claim_C9_austerity_service_invariant_witness :
    (LoadLevel none).2 = false ∧
    (serviceStep AusterityLevel.Critical (ServiceEvent.load none)).1 =
      AusterityLevel.Critical :=
  ⟨by decide,
   (claim_C9_austerity_service_invariant.2.1 AusterityLevel.Critical none
     (by decide)).1⟩

/-! ## Shutdown-aware readers (`reader.go`)

Both variants wrap an inner byte stream and track `nl`, whether the last
byte returned was a newline, plus the `shuttingDown` flag flipped by the
shutdown goroutine.  The inner stream is modelled as the list of bytes it
has left, with `strings.Reader` semantics: a read returns up to the buffer
length of the remaining bytes, and `(0, io.EOF)` once exhausted. -/

/-- The state of a wrapped reader: remaining inner bytes, the `nl` flag, and
the `shuttingDown` flag. -/
structure RState where
  inner : List Char
  nl : Bool
  shuttingDown : Bool
deriving DecidableEq, Repr

/-- `UnilogReader.Read` with a caller buffer of length `bufLen` (≥ 1):
if `nl && shuttingDown`, return `(0, io.EOF)` without touching the inner
stream; during shutdown truncate the buffer to one byte (`buf = buf[:1]`);
update `nl` from the last byte read when any bytes were read.  Result: new
state, bytes read, and whether the call reported `io.EOF`. -/
def unilogReaderRead (st : RState) (bufLen : Nat) : RState × List Char × Bool :=
  if st.nl && st.shuttingDown then (st, [], true)
  else
    let n := if st.shuttingDown then min 1 bufLen else bufLen
    let got := st.inner.take n
    (⟨st.inner.drop n,
      if got.isEmpty then st.nl else got.getLast? == some '\n',
      st.shuttingDown⟩,
     got, st.inner.isEmpty)

/-- `Reader.Read`, the mutex variant that `readlines` wraps around its input:
identical to `UnilogReader.Read` except that the one-byte truncation during
shutdown is absent (its constructor's doc comment still promises reading
"one byte at a time until newline"). -/
def readerRead (st : RState) (bufLen : Nat) : RState × List Char × Bool :=
  if st.nl && st.shuttingDown then (st, [], true)
  else
    let got := st.inner.take bufLen
    (⟨st.inner.drop bufLen,
      if got.isEmpty then st.nl else got.getLast? == some '\n',
      st.shuttingDown⟩,
     got, st.inner.isEmpty)

/-- **C2**: the spec's drain contract says that once draining, reads continue
only up to the next terminator, with end-of-stream on the call after.
`UnilogReader` implements this (one byte per read while draining), but
`Reader` — the variant `readlines` actually uses — lost the one-byte
truncation its documentation promises: on a draining stream holding
`"a\nb\n"`, a 3-byte read returns `"a\nb"`, sailing past the `"a"` record's
terminator, and the following call still returns data (`"\n"`) rather than
end-of-stream; `io.EOF` only arrives on the call after a read that happens
to *end* at a newline.  The same trace under `UnilogReader` stops at the
record boundary as claimed. -/
theorem claim_C2_reader_drain_overshoot :
    readerRead ⟨"a\nb\n".toList, false, true⟩ 3 =
      (⟨"\n".toList, false, true⟩, "a\nb".toList, false) ∧
    readerRead ⟨"\n".toList, false, true⟩ 3 =
      (⟨[], true, true⟩, "\n".toList, false) ∧
    readerRead ⟨[], true, true⟩ 3 = (⟨[], true, true⟩, [], true) ∧
    unilogReaderRead ⟨"a\nb\n".toList, false, true⟩ 3 =
      (⟨"\nb\n".toList, false, true⟩, "a".toList, false) ∧
    unilogReaderRead ⟨"\nb\n".toList, false, true⟩ 3 =
      (⟨"b\n".toList, true, true⟩, "\n".toList, false) ∧
    unilogReaderRead ⟨"b\n".toList, true, true⟩ 3 =
      (⟨"b\n".toList, true, true⟩, [], true) := by
  decide

/-! ## The line pipeline (`unilog.go`: `readlines`)

The producer goroutine repeatedly calls `bufio.Reader.ReadString('\n')` and,
for every non-empty chunk, sends the chunk with its trailing newlines
trimmed.  Over the plain byte stream (no shutdown, where `Reader` is a
transparent passthrough and `bufio` only regroups bytes), the chunks are
exactly the segments of the input up to and including each `'\n'`, plus a
final unterminated segment delivered together with `io.EOF`.  `pipeGo`
accumulates the current chunk (in reverse) and mirrors that loop. -/

/-- The record sequence produced by `readlines`' read loop, over the raw
byte list: `acc` is the reversed prefix of the chunk being assembled. -/
def pipeGo (acc : List Char) : List Char → List (List Char)
  | [] => if acc.isEmpty then [] else [acc.reverse]
  | c :: cs => if c = '\n' then acc.reverse :: pipeGo [] cs else pipeGo (c :: acc) cs

/-- The records `readlines` delivers on its line channel for a full input
stream with no shutdown. -/
def readlines (l : List Char) : List String :=
  (pipeGo [] l).map String.mk

/-- Drop a trailing empty segment: an input ending in a terminator has no
final (empty) line after it. -/
def dropLastIfEmpty (xs : List (List Char)) : List (List Char) :=
  if xs.getLast? = some [] then xs.dropLast else xs

/-- The spec's record sequence: "the sequence of input lines obtained by
splitting the input on newline, with terminators stripped, in original
order" (a trailing terminator introduces no extra empty record). -/
def splitLines (l : List Char) : List String :=
  (dropLastIfEmpty (l.splitOn '\n')).map String.mk

theorem modifyHead_nil_append (X : List (List Char)) :
    X.modifyHead (([] : List Char) ++ ·) = X := by
  cases X <;> simp [List.modifyHead]

theorem modifyHead_fun_id (X : List (List Char)) :
    X.modifyHead (fun x => x) = X := by
  cases X <;> simp [List.modifyHead]

theorem dropLastIfEmpty_cons (x : List Char) (t : List (List Char)) (h : t ≠ []) :
    dropLastIfEmpty (x :: t) = x :: dropLastIfEmpty t := by
  match t, h with
  | y :: t', _ =>
    unfold dropLastIfEmpty
    by_cases hl : (y :: t').getLast? = some []
    · simp [List.getLast?_cons_cons, hl]
    · simp [List.getLast?_cons_cons, hl]

/-- The pipeline loop computes the newline-split segments: `pipeGo acc l` is
the split of `l`, with the pending chunk `acc` prepended to the first
segment and a trailing empty segment suppressed. -/
theorem pipeGo_eq_splitOn (l : List Char) : ∀ acc : List Char,
    pipeGo acc l = dropLastIfEmpty ((l.splitOn '\n').modifyHead (acc.reverse ++ ·)) := by
  induction l with
  | nil =>
    intro acc
    show pipeGo acc [] = dropLastIfEmpty ([[]].modifyHead (acc.reverse ++ ·))
    by_cases h : acc.isEmpty
    · simp_all [pipeGo, dropLastIfEmpty, List.isEmpty_iff]
    · have : acc.reverse ≠ [] := by
        simp_all [List.isEmpty_iff]
      simp_all [pipeGo, dropLastIfEmpty, List.getLast?]
  | cons c cs ih =>
    intro acc
    by_cases hc : c = '\n'
    · subst hc
      show pipeGo acc ('\n' :: cs) =
        dropLastIfEmpty ((('\n' :: cs).splitOnP (· == '\n')).modifyHead (acc.reverse ++ ·))
      rw [List.splitOnP_cons]
      simp only [beq_self_eq_true, if_pos, List.modifyHead, List.append_nil, pipeGo]
      rw [dropLastIfEmpty_cons _ _ (List.splitOnP_ne_nil _ _), ih []]
      simp [List.splitOn, modifyHead_nil_append, modifyHead_fun_id]
    · show pipeGo acc (c :: cs) =
        dropLastIfEmpty (((c :: cs).splitOnP (· == '\n')).modifyHead (acc.reverse ++ ·))
      rw [List.splitOnP_cons]
      have hbeq : (c == '\n') = false := beq_eq_false_iff_ne.mpr hc
      rw [if_neg (by simp [hbeq])]
      simp only [pipeGo, if_neg hc]
      rw [ih (c :: acc), List.modifyHead_modifyHead]
      congr 2
      funext x
      simp

/-- The pipeline's record sequence is the newline-split line sequence. -/
theorem readlines_eq_splitLines (l : List Char) :
    readlines l = splitLines l := by
  unfold readlines splitLines
  rw [pipeGo_eq_splitOn]
  congr 1
  cases h : l.splitOn '\n' with
  | nil => exact absurd h (List.splitOnP_ne_nil _ _)
  | cons y t => simp [List.modifyHead]

/-- **C7**: with no shutdown triggered, the sequence of records the line
pipeline emits equals the input split on newline with terminators stripped,
in original order. -/
theorem claim_C7_pipeline_preserves_lines (s : String) :
    readlines s.toList = splitLines s.toList :=
  readlines_eq_splitLines s.toList

/-! ## Shutdown before the first read (`readlines` + `NewReader`)

`readlines` wraps its input in `NewReader` (the `Reader` variant) and reads
through `bufio.NewReader` (4096-byte buffer).  When the shutdown signal has
already been observed before the first read, the first `bufio` fill calls
`Reader.Read` with the whole 4096-byte buffer: `nl` is still `false`, so the
read proceeds and — for an input of at most 4096 bytes — returns the entire
remaining input in one chunk.  Every later fill returns `io.EOF`: via the
drain cut if that chunk ended in `'\n'` (`nl` is now `true`), and from the
exhausted source otherwise.  The record loop therefore runs over exactly the
bytes of that first chunk. -/

/-- Records delivered by the pipeline when shutdown fires before the first
read, for inputs of at most 4096 bytes (`bufio`'s buffer size). -/
def readlinesShutdownFirst (l : List Char) : List String :=
  let r := readerRead ⟨l, false, true⟩ 4096
  if r.2.2 then [] else readlines r.2.1

/-- **C1 (counterexample)**: the claim expects the pipeline, with shutdown
triggered immediately before the first read of `"a\nb\nc"`, to deliver
exactly `"a"`, `"b"` and drop the unterminated `"c"`.  The code delivers
`"a"`, `"b"`, `"c"`: the first fill consumes the whole input before any
drain decision is made, and the final `io.EOF` comes from the exhausted
source, after which the loop still emits the non-empty chunk `"c"`. -/
theorem claim_C1_shutdown_drop_counterexample :
    readlinesShutdownFirst "a\nb\nc".toList = ["a", "b", "c"] ∧
    readlinesShutdownFirst "a\nb\nc".toList ≠ ["a", "b"] := by
  decide

/-- **C1 (amended)**: triggering shutdown before the first read does not drop
the trailing unterminated record; for any input that fits in `bufio`'s
4096-byte buffer, the pipeline delivers exactly the newline-split lines of
the full input — the complete records and the final unterminated one — then
reports end-of-stream. -/
theorem claim_C1_shutdown_before_read_delivers_all (s : String)
    (h : s.toList.length ≤ 4096) :
    readlinesShutdownFirst s.toList = splitLines s.toList := by
  have key : ∀ l : List Char, l.length ≤ 4096 →
      readlinesShutdownFirst l = splitLines l := by
    intro l hl
    unfold readlinesShutdownFirst
    by_cases he : l.isEmpty
    · rw [List.isEmpty_iff] at he
      subst he
      decide
    · have he' : l.isEmpty = false := by
        simpa using he
      simp only [readerRead, Bool.false_and, Bool.false_eq_true, if_false, he']
      rw [List.take_of_length_le hl]
      exact readlines_eq_splitLines l
  exact key s.toList h

/-- Witness for C1 (amended) at the concrete input `"ab\ncd"`: shutdown
before the first read still delivers `"ab"` and the unterminated `"cd"`. -/
theorem claim_C1_shutdown_before_read_delivers_all_witness :
    ("ab\ncd".toList.length ≤ 4096) ∧
    readlinesShutdownFirst "ab\ncd".toList = splitLines "ab\ncd".toList :=
  ⟨by decide, claim_C1_shutdown_before_read_delivers_all "ab\ncd" (by decide)⟩

/-! ## The event loop (`unilog.go`: `Unilog.tick`)

One `tick` blocks on a five-way `select`; each case is modelled as an event.
The shutdown handoff `select { case u.shutdown <- struct{}{}: ...; default: }`
on the unbuffered `u.shutdown` channel succeeds exactly when the `NewReader`
goroutine is currently blocked receiving — tracked as `receiverWaiting`,
initially true and consumed by the single successful send.  `u.exit(1)` is
tracked as `exited`. -/

/-- One event of the `select` in `Unilog.tick`. -/
inductive TickEvent where
  | pipeErr (fatal : Bool)
  | reopenSig
  | termSig
  | quitSig
  | lineMsg (closed : Bool)
deriving DecidableEq, Repr

/-- The event loop's shutdown-protocol state. -/
structure LoopState where
  shouldShutdown : Bool
  receiverWaiting : Bool
  exited : Bool
deriving DecidableEq, Repr

/-- State at `Main`: `shouldShutdown` unset, the shutdown channel's receiver
parked, no exit. -/
def loopInit : LoopState := ⟨false, true, false⟩

/-- `Unilog.tick`: returns the successor state and whether the loop keeps
running (`tick`'s boolean result; a fatal pipeline error panics, which also
stops the loop). -/
def tick (s : LoopState) (e : TickEvent) : LoopState × Bool :=
  match e with
  | TickEvent.pipeErr _ => (s, false)
  | TickEvent.reopenSig => (s, true)
  | TickEvent.termSig =>
    if s.receiverWaiting then
      ({ s with receiverWaiting := false, shouldShutdown := true }, true)
    else (s, true)
  | TickEvent.quitSig =>
    if s.shouldShutdown then ({ s with exited := true }, false) else (s, true)
  | TickEvent.lineMsg closed => (s, !closed)

/-- `Unilog.run`: iterate `tick` over the events, stopping when a tick
returns false. -/
def runLoop (s : LoopState) : List TickEvent → LoopState
  | [] => s
  | e :: es =>
    let r := tick s e
    if r.2 then runLoop r.1 es else r.1

theorem tick_preserves_exit_imp (s : LoopState) (e : TickEvent)
    (h : s.exited = true → s.shouldShutdown = true) :
    (tick s e).1.exited = true → (tick s e).1.shouldShutdown = true := by
  cases e with
  | pipeErr fatal => exact h
  | reopenSig => exact h
  | termSig =>
    by_cases hr : s.receiverWaiting = true <;> simp_all [tick]
  | quitSig =>
    by_cases hq : s.shouldShutdown = true <;> simp_all [tick]
  | lineMsg closed => exact h

/-- In any reachable state, having exited implies the shutdown handoff was
marked: `exit(1)` runs only under `if u.shouldShutdown`. -/
theorem runLoop_exit_imp (es : List TickEvent) : ∀ s : LoopState,
    (s.exited = true → s.shouldShutdown = true) →
    (runLoop s es).exited = true → (runLoop s es).shouldShutdown = true := by
  induction es with
  | nil => exact fun s h => h
  | cons e es ih =>
    intro s h
    show (if (tick s e).2 then runLoop (tick s e).1 es else (tick s e).1).exited = true →
      (if (tick s e).2 then runLoop (tick s e).1 es else (tick s e).1).shouldShutdown = true
    by_cases hc : (tick s e).2
    · rw [if_pos hc]
      exact ih (tick s e).1 (tick_preserves_exit_imp s e h)
    · rw [if_neg hc]
      exact tick_preserves_exit_imp s e h

/-- `shouldShutdown` can only have been set by a terminate tick whose
non-blocking handoff succeeded (the receiver was waiting). -/
theorem runLoop_shutdown_source (es : List TickEvent) : ∀ s : LoopState,
    (runLoop s es).shouldShutdown = true →
    s.shouldShutdown = true ∨
      ∃ es₁ es₂, es = es₁ ++ TickEvent.termSig :: es₂ ∧
        (runLoop s es₁).receiverWaiting = true := by
  induction es with
  | nil => exact fun s h => Or.inl h
  | cons e es ih =>
    intro s h
    have hun : runLoop s (e :: es) =
        if (tick s e).2 then runLoop (tick s e).1 es else (tick s e).1 := rfl
    rw [hun] at h
    by_cases hc : (tick s e).2
    · rw [if_pos hc] at h
      rcases ih (tick s e).1 h with h1 | ⟨es₁, es₂, heq, hw⟩
      · cases e with
        | pipeErr fatal => exact Or.inl h1
        | reopenSig => exact Or.inl h1
        | termSig =>
          by_cases hr : s.receiverWaiting = true
          · refine Or.inr ⟨[], es, rfl, ?_⟩
            simpa [runLoop] using hr
          · left
            simpa [tick, hr] using h1
        | quitSig =>
          by_cases hq : s.shouldShutdown = true <;> simp_all [tick]
        | lineMsg closed => exact Or.inl h1
      · refine Or.inr ⟨e :: es₁, es₂, by rw [heq]; simp, ?_⟩
        show (if (tick s e).2 then runLoop (tick s e).1 es₁ else (tick s e).1).receiverWaiting = true
        rw [if_pos hc]
        exact hw
    · rw [if_neg hc] at h
      cases e with
      | pipeErr fatal => exact Or.inl h
      | reopenSig => exact Or.inl h
      | termSig =>
        by_cases hr : s.receiverWaiting = true <;> simp [tick, hr] at hc
      | quitSig =>
        by_cases hq : s.shouldShutdown = true <;> simp_all [tick]
      | lineMsg closed => exact Or.inl h

/-- **C3**: the event loop never exits on a force-quit tick unless a previous
terminate tick succeeded in handing off on the shutdown channel (arming
force-exit); and two terminate signals in immediate succession produce the
same state as one — the first (with the receiver waiting) arms, the second
is a no-op. -/
theorem claim_C3_forcequit_requires_armed :
    (∀ es : List TickEvent, (runLoop loopInit es).exited = true →
      ∃ es₁ es₂, es = es₁ ++ TickEvent.termSig :: es₂ ∧
        (runLoop loopInit es₁).receiverWaiting = true) ∧
    (∀ s : LoopState, runLoop s [TickEvent.termSig, TickEvent.termSig] =
      runLoop s [TickEvent.termSig]) ∧
    (∀ s : LoopState, s.receiverWaiting = true →
      (tick s TickEvent.termSig).1.shouldShutdown = true) ∧
    (∀ s : LoopState,
      tick (tick s TickEvent.termSig).1 TickEvent.termSig =
        ((tick s TickEvent.termSig).1, true)) := by
  refine ⟨?_, ?_, ?_, ?_⟩
  · intro es hex
    have hss := runLoop_exit_imp es loopInit (by intro hx; cases hx) hex
    rcases runLoop_shutdown_source es loopInit hss with h1 | h2
    · cases h1
    · exact h2
  · intro s
    by_cases hr : s.receiverWaiting = true <;> simp [runLoop, tick, hr]
  · intro s hr
    simp [tick, hr]
  · intro s
    by_cases hr : s.receiverWaiting = true <;> simp [tick, hr]

/-- Witness for C3: the trace `[terminate, force-quit]` exits, and the
decomposition exhibits the successful terminate handoff. -/
theorem claim_C3_forcequit_requires_armed_witness :
    (runLoop loopInit [TickEvent.termSig, TickEvent.quitSig]).exited = true ∧
    (∃ es₁ es₂, [TickEvent.termSig, TickEvent.quitSig] =
        es₁ ++ TickEvent.termSig :: es₂ ∧
      (runLoop loopInit es₁).receiverWaiting = true) ∧
    (tick loopInit TickEvent.termSig).1.shouldShutdown = true :=
  ⟨by decide,
   claim_C3_forcequit_requires_armed.1 _ (by decide),
   claim_C3_forcequit_requires_armed.2.2.1 loopInit (by decide)⟩

/-! ## The failure notifier (`unilog.go`: `Unilog.handleError`)

`handleError(action, e)` mutates the breakage record `u.b = {broken, at,
count}`: a failure when not broken, or more than one hour into an episode,
resets the episode (`at = now`, `count = 0`).  It then always counts the
failure metric (when a stats client is configured), reports to the
exception tracker and sends mail only when `count == 0` (and the respective
sink is configured), and finally increments `count`.  Time is modelled in
seconds; `time.Since(at) > time.Hour` is `now - at > 3600` (a negative
`Since` is not `> hour`, matching truncated `Nat` subtraction). -/

/-- The `u.b` breakage record; `sinceT` is the field `at`. -/
structure Breakage where
  broken : Bool
  sinceT : Nat
  count : Nat
deriving DecidableEq, Repr

/-- Which notification sinks are configured: `Stats != nil`,
`SentryDSN != ""`, `MailFrom != "" && MailTo != ""`. -/
structure NotifyConfig where
  stats : Bool
  sentry : Bool
  mail : Bool
deriving DecidableEq, Repr

/-- What one `handleError` call emitted. -/
structure NotifyOut where
  metric : Bool
  sentryReport : Bool
  mailSent : Bool
deriving DecidableEq, Repr

/-- `time.Hour`, in seconds. -/
def hourSecs : Nat := 3600

/-- `Unilog.handleError` at instant `now`: returns the updated breakage
record and what was emitted. -/
def handleError (cfg : NotifyConfig) (now : Nat) (b : Breakage) :
    Breakage × NotifyOut :=
  let b1 :=
    if !b.broken then (⟨true, now, 0⟩ : Breakage)
    else if now - b.sinceT > hourSecs then ⟨true, now, 0⟩
    else b
  let out : NotifyOut :=
    ⟨cfg.stats, (b1.count == 0) && cfg.sentry, (b1.count == 0) && cfg.mail⟩
  (⟨b1.broken, b1.sinceT, b1.count + 1⟩, out)

/-- A run of consecutive write failures at the given instants, threading the
breakage record and collecting each call's emissions in order. -/
def runFailures (cfg : NotifyConfig) (b : Breakage) :
    List Nat → Breakage × List NotifyOut
  | [] => (b, [])
  | t :: ts =>
    let r := handleError cfg t b
    let rest := runFailures cfg r.1 ts
    (rest.1, r.2 :: rest.2)

/-- Within a broken episode started at `t0`, every further failure at most
an hour after `t0` emits only the metric. -/
theorem runFailures_in_episode (cfg : NotifyConfig) (t0 : Nat) :
    ∀ (rest : List Nat) (c : Nat), (∀ t ∈ rest, t ≤ t0 + hourSecs) →
    ((runFailures cfg ⟨true, t0, c + 1⟩ rest).2.map NotifyOut.sentryReport =
      List.replicate rest.length false) ∧
    ((runFailures cfg ⟨true, t0, c + 1⟩ rest).2.map NotifyOut.mailSent =
      List.replicate rest.length false) ∧
    ((runFailures cfg ⟨true, t0, c + 1⟩ rest).2.map NotifyOut.metric =
      List.replicate rest.length cfg.stats) := by
  intro rest
  induction rest with
  | nil => exact fun c _ => ⟨rfl, rfl, rfl⟩
  | cons t ts ih =>
    intro c hle
    have hwin : ¬ t - t0 > hourSecs := by
      have := hle t (List.mem_cons_self t ts)
      omega
    have hstep : handleError cfg t ⟨true, t0, c + 1⟩ =
        (⟨true, t0, c + 2⟩, ⟨cfg.stats, false, false⟩) := by
      simp [handleError, hwin]
    have hrec : runFailures cfg ⟨true, t0, c + 1⟩ (t :: ts) =
        (let r := handleError cfg t ⟨true, t0, c + 1⟩
         let rest := runFailures cfg r.1 ts
         (rest.1, r.2 :: rest.2)) := rfl
    rw [hrec, hstep]
    have hts : ∀ x ∈ ts, x ≤ t0 + hourSecs :=
      fun x hx => hle x (List.mem_cons_of_mem t hx)
    have := ih (c + 1) hts
    simp only [List.map_cons, List.length_cons, List.replicate_succ]
    exact ⟨by rw [this.1], by rw [this.2.1], by rw [this.2.2]⟩

/-- **C6**: starting from a non-broken breakage record with stats, exception
tracker and mail all configured, a run of consecutive write failures within
one hour of the first emits the exception report and the email exactly once
— both on the first failure — and one failure-counter metric per failure
(with 1000 failures: 1000 metric emissions). -/
theorem claim_C6_notification_throttling
    (cfg : NotifyConfig) (b0 : Breakage) (t0 : Nat) (rest : List Nat)
    (hstats : cfg.stats = true) (hsentry : cfg.sentry = true)
    (hmail : cfg.mail = true) (hb : b0.broken = false)
    (hrest : ∀ t ∈ rest, t ≤ t0 + hourSecs) :
    ((runFailures cfg b0 (t0 :: rest)).2.map NotifyOut.sentryReport =
      true :: List.replicate rest.length false) ∧
    ((runFailures cfg b0 (t0 :: rest)).2.map NotifyOut.mailSent =
      true :: List.replicate rest.length false) ∧
    ((runFailures cfg b0 (t0 :: rest)).2.map NotifyOut.metric =
      List.replicate (rest.length + 1) true) := by
  have hstep : handleError cfg t0 b0 = (⟨true, t0, 1⟩, ⟨true, true, true⟩) := by
    simp [handleError, hb, hstats, hsentry, hmail]
  have hrec : runFailures cfg b0 (t0 :: rest) =
      (let r := handleError cfg t0 b0
       let rest' := runFailures cfg r.1 rest
       (rest'.1, r.2 :: rest'.2)) := rfl
  rw [hrec, hstep]
  have h1 := runFailures_in_episode cfg t0 rest 0 hrest
  rw [hstats] at h1
  simp only [List.map_cons, List.replicate_succ]
  exact ⟨by rw [h1.1], by rw [h1.2.1], by rw [h1.2.2]⟩

/-- Witness for C6: 1000 simultaneous failures from a healthy state emit one
exception report, one email, and 1000 metric counts. -/
theorem claim_C6_notification_throttling_witness :
    ((runFailures ⟨true, true, true⟩ ⟨false, 0, 0⟩
        (0 :: List.replicate 999 0)).2.map NotifyOut.sentryReport =
      true :: List.replicate 999 false) ∧
    ((runFailures ⟨true, true, true⟩ ⟨false, 0, 0⟩
        (0 :: List.replicate 999 0)).2.map NotifyOut.mailSent =
      true :: List.replicate 999 false) ∧
    ((runFailures ⟨true, true, true⟩ ⟨false, 0, 0⟩
        (0 :: List.replicate 999 0)).2.map NotifyOut.metric =
      List.replicate 1000 true) := by
  have h := claim_C6_notification_throttling ⟨true, true, true⟩ ⟨false, 0, 0⟩ 0
    (List.replicate 999 0) rfl rfl rfl rfl
    (by
      intro t ht
      rw [List.eq_of_mem_replicate ht]
      omega)
  rw [List.length_replicate] at h
  norm_num at h
  exact ⟨h.1, h.2.1, h.2.2⟩

/-! ## JSON log lines (`json/json.go`)

A decoded JSON log line is a string-keyed mapping.  Only scalar field
values interact with the claims, so values are modelled as string, number
(exact rationals standing in for `float64`), boolean, null — plus `fbad`,
a value whose `json.Marshal` fails with the given message (such as the
custom marshaller in the package's tests); composite values behave like any
other marshalable value here.  Instants (`time.Time`) are modelled as
integer nanoseconds since the epoch, `time.Time`'s resolution.

The RFC3339Nano rendering that `MarshalJSON` emits is nanosecond-precise
and re-parseable; its calendar arithmetic is abstracted as an injective
decimal encoding `rfc3339` of the nanosecond instant with exact inverse
`parseTime` — the claims depend only on injectivity and on the nanosecond
precision, not on the calendar text itself. -/

/-- A JSON field value. -/
inductive FVal where
  | fstr (s : String)
  | fnum (q : ℚ)
  | fbool (b : Bool)
  | fnull
  | fbad (msg : String)
deriving DecidableEq, Repr

/-- `LogLine` (`map[string]interface{}`), as the decoded key/value list. -/
abbrev LogLine := List (String × FVal)

/-- Map lookup `(*j)[k]`. -/
def lookupField (line : LogLine) (k : String) : Option FVal :=
  (line.find? (fun p => p.1 == k)).map (fun p => p.2)

/-- The digit character of `d < 10`. -/
def digitChar (d : Nat) : Char := Char.ofNat (48 + d)

/-- The value of a digit character. -/
def charDigit (c : Char) : Nat := c.toNat - 48

/-- Decimal digit characters of a natural number, most significant first. -/
def natChars (n : Nat) : List Char :=
  if n = 0 then ['0'] else ((Nat.digits 10 n).map digitChar).reverse

/-- Parse a non-empty all-digit character list, most significant first. -/
def natOfChars (ds : List Char) : Option Nat :=
  if ds.isEmpty || !ds.all (fun c => c.isDigit) then none
  else some (Nat.ofDigits 10 ((ds.map charDigit).reverse))

/-- The RFC3339Nano text of the instant `n` (nanoseconds since the epoch),
abstracted as a signed decimal encoding (see the section comment). -/
def rfc3339 (n : ℤ) : String :=
  String.mk ((if n < 0 then '-' else '+') :: natChars n.natAbs)

/-- `time.Parse` of an RFC3339Nano text, exact inverse of `rfc3339`;
`none` models a parse error. -/
def parseTime (s : String) : Option ℤ :=
  match s.toList with
  | [] => none
  | c :: ds =>
    if c = '+' then (natOfChars ds).map (fun m : Nat => (m : ℤ))
    else if c = '-' then (natOfChars ds).map (fun m : Nat => -(m : ℤ))
    else none

theorem parseTime_cons (c : Char) (l : List Char) :
    parseTime (String.mk (c :: l)) =
      if c = '+' then (natOfChars l).map (fun m : Nat => (m : ℤ))
      else if c = '-' then (natOfChars l).map (fun m : Nat => -(m : ℤ))
      else none := rfl

theorem digitChar_isDigit : ∀ d : Nat, d < 10 →
    (digitChar d).isDigit = true ∧ charDigit (digitChar d) = d := by
  decide

theorem natOfChars_natChars (m : Nat) : natOfChars (natChars m) = some m := by
  by_cases hm : m = 0
  · subst hm
    decide
  · have hdig : ∀ d ∈ Nat.digits 10 m, d < 10 :=
      fun d hd => Nat.digits_lt_base (by norm_num) hd
    unfold natChars natOfChars
    rw [if_neg hm]
    have hne : Nat.digits 10 m ≠ [] := Nat.digits_ne_nil_iff_ne_zero.mpr hm
    have hisEmpty : (((Nat.digits 10 m).map digitChar).reverse).isEmpty = false := by
      simp [List.isEmpty_iff, hne]
    have hall : (((Nat.digits 10 m).map digitChar).reverse).all
        (fun c => c.isDigit) = true := by
      rw [List.all_eq_true]
      intro c hc
      rw [List.mem_reverse, List.mem_map] at hc
      obtain ⟨d, hd, rfl⟩ := hc
      exact (digitChar_isDigit d (hdig d hd)).1
    rw [hisEmpty, hall]
    norm_num
    have hmapid : (Nat.digits 10 m).map (charDigit ∘ digitChar) = Nat.digits 10 m := by
      rw [show (Nat.digits 10 m).map (charDigit ∘ digitChar) =
          (Nat.digits 10 m).map id from
        List.map_congr_left (fun d hd => (digitChar_isDigit d (hdig d hd)).2)]
      exact List.map_id _
    rw [hmapid, Nat.ofDigits_digits]

/-- `parseTime` recovers the instant `rfc3339` rendered: the abstract
RFC3339Nano round trip is exact. -/
theorem parseTime_rfc3339 (n : ℤ) : parseTime (rfc3339 n) = some n := by
  unfold rfc3339
  by_cases hn : n < 0
  · rw [if_pos hn, parseTime_cons, if_neg (by decide), if_pos rfl,
      natOfChars_natChars, Option.map_some']
    congr 1
    omega
  · rw [if_neg hn, parseTime_cons, if_pos rfl, natOfChars_natChars,
      Option.map_some']
    congr 1
    omega

/-- The spec's recognized timestamp fields, in priority order:
`timestamp`, then `ts`. -/
def lookupTS (line : LogLine) : Option FVal :=
  match lookupField line "timestamp" with
  | some v => some v
  | none => lookupField line "ts"

/-- Nanosecond instant of a numeric epoch-seconds value (optionally
fractional): seconds scaled to nanoseconds, truncated to `time.Time`'s
integer nanoseconds. -/
def epochNanos (q : ℚ) : ℤ := ⌊q * 1000000000⌋

/-- Modelled from the spec: `LogLine.Timestamp` — the JSON package's current
timestamp accessor is not under `src` (only its tests are; `src/json/json.go`
holds the older `TS` variant that reads only a string-valued `ts`).  Per the
spec, the recognized fields are `timestamp`/`ts`, holding either an
RFC3339-like string or numeric epoch seconds, optionally fractional; `none`
models the fallback to `time.Now()`. -/
def Timestamp (line : LogLine) : Option ℤ :=
  match lookupTS line with
  | some (FVal.fnum q) => some (epochNanos q)
  | some (FVal.fstr s) => parseTime s
  | _ => none

/-- Modelled from the spec: the current `MarshalJSON`'s effect on the
timestamp field — the re-serialized line carries the line's instant (or the
current time) as an RFC3339Nano `timestamp` field, emitted first, with the
original timestamp fields replaced. -/
def reserialize (now : ℤ) (line : LogLine) : LogLine :=
  ("timestamp", FVal.fstr (rfc3339 ((Timestamp line).getD now))) ::
    line.filter (fun p => !(p.1 == "timestamp" || p.1 == "ts"))

theorem lookupTS_cons_timestamp (v : FVal) (rest : LogLine) :
    lookupTS (("timestamp", v) :: rest) = some v := by
  unfold lookupTS lookupField
  rw [List.find?_cons_of_pos _ (by simp)]
  rfl

theorem Timestamp_cons_num (q : ℚ) (rest : LogLine) :
    Timestamp (("timestamp", FVal.fnum q) :: rest) = some (epochNanos q) := by
  unfold Timestamp
  rw [lookupTS_cons_timestamp]

theorem Timestamp_cons_str (s : String) (rest : LogLine) :
    Timestamp (("timestamp", FVal.fstr s) :: rest) = parseTime s := by
  unfold Timestamp
  rw [lookupTS_cons_timestamp]

/-- **C8**: a structured record carrying a numeric epoch timestamp
re-serializes with a timestamp field denoting the same instant to within one
microsecond (the only loss is the truncation to integer nanoseconds, under
10⁻⁶ s); the recognized fields are `timestamp`/`ts`, holding a numeric epoch
value or an RFC3339-like string; and the spec's example instant
`1550493962.283873` round-trips exactly. -/
theorem claim_C8_json_timestamp_roundtrip :
    (∀ (now : ℤ) (line : LogLine) (q : ℚ),
      lookupTS line = some (FVal.fnum q) →
      Timestamp (reserialize now line) = some (epochNanos q) ∧
      |(epochNanos q : ℚ) / 10 ^ 9 - q| < 1 / 10 ^ 6) ∧
    (∀ (q : ℚ) (rest : LogLine),
      Timestamp (("timestamp", FVal.fnum q) :: rest) = some (epochNanos q)) ∧
    (∀ q : ℚ, Timestamp [("ts", FVal.fnum q)] = some (epochNanos q)) ∧
    (∀ n : ℤ, Timestamp [("ts", FVal.fstr (rfc3339 n))] = some n) ∧
    Timestamp (reserialize 0 [("timestamp", FVal.fnum (1550493962.283873 : ℚ))]) =
      some 1550493962283873000 := by
  have hts : ∀ v : FVal, lookupTS [("ts", v)] = some v := by
    intro v
    unfold lookupTS lookupField
    rw [List.find?_cons_of_neg _ (by simp), List.find?_nil,
      List.find?_cons_of_pos _ (by simp)]
    rfl
  have hmain : ∀ (now : ℤ) (line : LogLine) (q : ℚ),
      lookupTS line = some (FVal.fnum q) →
      Timestamp (reserialize now line) = some (epochNanos q) := by
    intro now line q h
    have ht : Timestamp line = some (epochNanos q) := by
      unfold Timestamp
      rw [h]
    unfold reserialize
    rw [ht, Timestamp_cons_str, Option.getD_some, parseTime_rfc3339]
  have hstr : ∀ n : ℤ, Timestamp [("ts", FVal.fstr (rfc3339 n))] = some n := by
    intro n
    unfold Timestamp
    rw [hts]
    exact parseTime_rfc3339 n
  have hnum : ∀ q : ℚ, Timestamp [("ts", FVal.fnum q)] = some (epochNanos q) := by
    intro q
    unfold Timestamp
    rw [hts]
  have herr : ∀ q : ℚ, |(epochNanos q : ℚ) / 10 ^ 9 - q| < 1 / 10 ^ 6 := by
    intro q
    have hpow : ((10 : ℚ) ^ 9) = 1000000000 := by norm_num
    have h1 : ((epochNanos q : ℚ)) ≤ q * 10 ^ 9 := by
      have h := Int.floor_le (q * 1000000000)
      unfold epochNanos
      rw [hpow]
      exact_mod_cast h
    have h2 : q * 10 ^ 9 - 1 < (epochNanos q : ℚ) := by
      have h := Int.sub_one_lt_floor (q * 1000000000)
      unfold epochNanos
      rw [hpow]
      exact_mod_cast h
    have h9 : (0 : ℚ) < 10 ^ 9 := by norm_num
    rw [show (epochNanos q : ℚ) / 10 ^ 9 - q =
        ((epochNanos q : ℚ) - q * 10 ^ 9) / 10 ^ 9 from by ring, abs_lt]
    constructor
    · rw [lt_div_iff₀ h9]
      nlinarith
    · rw [div_lt_iff₀ h9]
      nlinarith
  have hconcrete :
      Timestamp (reserialize 0 [("timestamp", FVal.fnum (1550493962.283873 : ℚ))]) =
        some 1550493962283873000 := by
    have hq : (1550493962.283873 : ℚ) * 1000000000 =
        ((1550493962283873000 : ℤ) : ℚ) := by norm_num
    have he : epochNanos (1550493962.283873 : ℚ) = 1550493962283873000 := by
      unfold epochNanos
      rw [hq, Int.floor_intCast]
    rw [hmain 0 _ _ (lookupTS_cons_timestamp _ _), he]
  exact ⟨fun now line q h => ⟨hmain now line q h, herr q⟩,
    fun q rest => Timestamp_cons_num q rest, hnum, hstr, hconcrete⟩

/-- Witness for C8 at the spec's example: the numeric timestamp
`1550493962.283873` is recognized and survives the re-serialization round
trip to within a microsecond. -/
theorem claim_C8_json_timestamp_roundtrip_witness :
    lookupTS [("timestamp", FVal.fnum (1550493962.283873 : ℚ))] =
      some (FVal.fnum (1550493962.283873 : ℚ)) ∧
    Timestamp (reserialize 7 [("timestamp", FVal.fnum (1550493962.283873 : ℚ))]) =
      some (epochNanos (1550493962.283873 : ℚ)) ∧
    |(epochNanos (1550493962.283873 : ℚ) : ℚ) / 10 ^ 9 -
        (1550493962.283873 : ℚ)| < 1 / 10 ^ 6 :=
  ⟨lookupTS_cons_timestamp _ _,
   (claim_C8_json_timestamp_roundtrip.1 7
     [("timestamp", FVal.fnum (1550493962.283873 : ℚ))] (1550493962.283873 : ℚ)
     (lookupTS_cons_timestamp _ [])).1,
   (claim_C8_json_timestamp_roundtrip.1 7
     [("timestamp", FVal.fnum (1550493962.283873 : ℚ))] (1550493962.283873 : ℚ)
     (lookupTS_cons_timestamp _ [])).2⟩
/-! ## The older JSON encoder under `src` (`src/json/json.go`)

`LogLine.TS` reads only a string-valued `ts` field (anything else falls back
to the current time); `LogLine.MarshalJSON` hand-assembles the output: `{`,
the `"ts"` field first with the RFC3339Nano-formatted instant, then each
remaining field prefixed with `,`, replacing any field value whose
`json.Marshal` fails with a placeholder string that embeds the error, and a
closing `}` — and unconditionally returns a nil error.  The textual
rendering of numbers is abstracted (no claim depends on it). -/

/-- `LogLine.TS`: the `ts` field parsed as a time when it is a parseable
string, the current time (`now`) otherwise. -/
def TS (now : ℤ) (line : LogLine) : ℤ :=
  match lookupField line "ts" with
  | some (FVal.fstr s) => (parseTime s).getD now
  | _ => now

/-- JSON string escaping (`json.Marshal` on a string): quote and backslash. -/
def jescape (s : String) : List Char :=
  s.toList.foldr
    (fun c acc => if c = '"' || c = '\\' then '\\' :: c :: acc else c :: acc) []

/-- A marshalled JSON string. -/
def renderString (s : String) : List Char :=
  '"' :: (jescape s ++ ['"'])

/-- `json.Marshal` of one field value; `fbad` is a value whose marshalling
fails with the given message. -/
def marshalValue (v : FVal) : Except String (List Char) :=
  match v with
  | FVal.fstr s => Except.ok (renderString s)
  | FVal.fnum q => Except.ok (toString q).toList
  | FVal.fbool b => Except.ok (if b then "true".toList else "false".toList)
  | FVal.fnull => Except.ok "null".toList
  | FVal.fbad msg => Except.error msg

/-- One iteration of `MarshalJSON`'s field loop: `,`, the marshalled key,
`:`, and the marshalled value — replaced by
`json.Marshal(fmt.Sprintf("[unilog json marshal error: %v]", err))` when
marshalling the value fails. -/
def renderField (p : String × FVal) : List Char :=
  ',' :: (renderString p.1 ++ (':' ::
    (match marshalValue p.2 with
     | Except.ok cs => cs
     | Except.error msg =>
       renderString ("[unilog json marshal error: " ++ msg ++ "]"))))

/-- `LogLine.MarshalJSON`: the output bytes and the returned error (which is
always nil). -/
def MarshalJSON (now : ℤ) (line : LogLine) : List Char × Option String :=
  ('\x7b' :: ("\"ts\":\"".toList ++ (rfc3339 (TS now line)).toList ++ ('"' ::
      (((line.filter (fun p => p.1 != "ts")).map renderField).flatten
        ++ ['\x7d']))),
   none)

/-- **C10**: `MarshalJSON` is total and returns a nil error for every log
line; the output starts with the `ts` field; and every non-`ts` field whose
value fails to marshal appears in the output with the placeholder string
embedding the marshal error, so serialization of the remaining fields still
succeeds. -/
theorem claim_C10_marshal_total_with_placeholder (now : ℤ) (line : LogLine) :
    (MarshalJSON now line).2 = none ∧
    (∃ rest : List Char, (MarshalJSON now line).1 =
      '\x7b' :: ("\"ts\":\"".toList ++ (rfc3339 (TS now line)).toList
        ++ ('"' :: rest))) ∧
    (∀ (k msg : String), (k, FVal.fbad msg) ∈ line → k ≠ "ts" →
      ∃ pre post, (MarshalJSON now line).1 =
        pre ++ (',' :: (renderString k ++ (':' ::
          renderString ("[unilog json marshal error: " ++ msg ++ "]"))))
          ++ post) := by
  refine ⟨rfl, ⟨_, rfl⟩, ?_⟩
  intro k msg hmem hk
  have hmem' : (k, FVal.fbad msg) ∈ line.filter (fun p => p.1 != "ts") := by
    rw [List.mem_filter]
    exact ⟨hmem, by simpa using hk⟩
  obtain ⟨l1, l2, hsplit⟩ := List.append_of_mem hmem'
  refine ⟨'\x7b' :: ("\"ts\":\"".toList ++ (rfc3339 (TS now line)).toList
      ++ ('"' :: (l1.map renderField).flatten)),
    (l2.map renderField).flatten ++ ['\x7d'], ?_⟩
  show (MarshalJSON now line).1 = _
  unfold MarshalJSON
  rw [hsplit]
  simp only [List.map_append, List.map_cons, List.flatten_append,
    List.flatten_cons, renderField, marshalValue, List.cons_append,
    List.append_assoc]

/-- Witness for C10: a line with one unmarshalable field still marshals with
a nil error, and the placeholder naming the error appears in the output. -/
theorem claim_C10_marshal_total_with_placeholder_witness :
    ((MarshalJSON 0 [("a", FVal.fbad "boom")]).2 = none) ∧
    (∃ pre post, (MarshalJSON 0 [("a", FVal.fbad "boom")]).1 =
      pre ++ (',' :: (renderString "a" ++ (':' ::
        renderString ("[unilog json marshal error: " ++ "boom" ++ "]"))))
        ++ post) :=
  ⟨(claim_C10_marshal_total_with_placeholder 0 [("a", FVal.fbad "boom")]).1,
   (claim_C10_marshal_total_with_placeholder 0 [("a", FVal.fbad "boom")]).2.2
     "a" "boom" (by decide) (by decide)⟩

end Unilog
